import Mathlib

/-!
Verification of the grid-layout selection, pagination, resize-observer
coalescing and room track-filtering logic of the egress-template repository.

Definitions are shallow embeddings of the TypeScript sources
(`useGridLayout` / `CUSTOM_GRID_LAYOUTS` in the unnamed hook module,
`GridLayout.tsx`, `Room.tsx`).  The layout-selection and pagination
algorithms themselves live in the external `@livekit/components` packages
and are not part of this repository's sources; those are modelled from the
specification and marked as such in their doc comments.
-/

namespace EgressTemplate

/-- Orientation constraint of a layout entry (optional in the schema). -/
inductive Orientation where
  | portrait
  | landscape
  deriving DecidableEq, Repr

/-- A fully specified grid-layout catalog entry, as in the `GridLayout` type
used by `CUSTOM_GRID_LAYOUTS` in the source: columns, rows, a name, a
tile-count range, minimum viewport dimensions and an optional
orientation constraint. -/
structure GridLayout where
  columns : Nat
  rows : Nat
  name : String
  minTiles : Nat
  maxTiles : Nat
  minWidth : Nat
  minHeight : Nat
  orientation : Option Orientation := none
  deriving DecidableEq, Repr

/-- The `CUSTOM_GRID_LAYOUTS` catalog, transcribed entry-for-entry from the
source hook module. -/
def CUSTOM_GRID_LAYOUTS : List GridLayout :=
  [ { columns := 1, rows := 1, name := "1x1", minTiles := 1, maxTiles := 1,
      minWidth := 0, minHeight := 0 },
    { columns := 1, rows := 2, name := "1x2", minTiles := 2, maxTiles := 2,
      minWidth := 0, minHeight := 0 },
    { columns := 2, rows := 1, name := "2x1", minTiles := 2, maxTiles := 2,
      minWidth := 800, minHeight := 0 },
    { columns := 3, rows := 1, name := "3x1", minTiles := 3, maxTiles := 3,
      minWidth := 540, minHeight := 0 },
    { columns := 2, rows := 2, name := "2x2", minTiles := 4, maxTiles := 4,
      minWidth := 560, minHeight := 0 },
    { columns := 3, rows := 2, name := "3x2", minTiles := 5, maxTiles := 6,
      minWidth := 700, minHeight := 0 },
    { columns := 4, rows := 2, name := "4x2", minTiles := 7, maxTiles := 8,
      minWidth := 700, minHeight := 0 },
    { columns := 3, rows := 3, name := "3x3", minTiles := 9, maxTiles := 9,
      minWidth := 700, minHeight := 0 },
    { columns := 4, rows := 3, name := "4x3", minTiles := 10, maxTiles := 12,
      minWidth := 960, minHeight := 0 },
    { columns := 5, rows := 3, name := "5x3", minTiles := 13, maxTiles := 15,
      minWidth := 960, minHeight := 0 },
    { columns := 4, rows := 4, name := "4x4", minTiles := 16, maxTiles := 16,
      minWidth := 960, minHeight := 0 },
    { columns := 5, rows := 4, name := "5x4", minTiles := 17, maxTiles := 20,
      minWidth := 1100, minHeight := 0 },
    { columns := 5, rows := 5, name := "5x5", minTiles := 21, maxTiles := 25,
      minWidth := 1100, minHeight := 0 } ]

/-- The first (smallest) entry of `CUSTOM_GRID_LAYOUTS`: the 1×1 layout. -/
def layout1x1 : GridLayout :=
  { columns := 1, rows := 1, name := "1x1", minTiles := 1, maxTiles := 1,
    minWidth := 0, minHeight := 0 }

/-- The second entry of `CUSTOM_GRID_LAYOUTS`: the 1×2 layout. -/
def layout1x2 : GridLayout :=
  { columns := 1, rows := 2, name := "1x2", minTiles := 2, maxTiles := 2,
    minWidth := 0, minHeight := 0 }

/-- Partial catalog entry, as in the `GridLayoutDefinition` type used by
`JKTP_GRID_LAYOUTS` in `GridLayout.tsx`: only columns and rows are
mandatory; orientation and the minimum viewport dimensions are optional. -/
structure GridLayoutDefinition where
  columns : Nat
  rows : Nat
  orientation : Option Orientation := none
  minWidth : Option Nat := none
  minHeight : Option Nat := none
  deriving DecidableEq, Repr

/-- The `JKTP_GRID_LAYOUTS` catalog, transcribed entry-for-entry from
`GridLayout.tsx`. -/
def JKTP_GRID_LAYOUTS : List GridLayoutDefinition :=
  [ { columns := 1, rows := 1 },
    { columns := 1, rows := 2, orientation := some .portrait },
    { columns := 2, rows := 1, orientation := some .landscape },
    { columns := 2, rows := 2, minWidth := some 560 },
    { columns := 3, rows := 3, minWidth := some 700 },
    { columns := 4, rows := 4, minWidth := some 960 },
    { columns := 5, rows := 5, minWidth := some 1100 },
    { columns := 6, rows := 6, minWidth := some 1200 } ]

/-- Modelled from the spec: the expansion of a partial
`GridLayoutDefinition` into a full `LayoutDefinition` performed inside the
external layout library.  Per the spec's data model the name is "derived or
explicit" (derived as "columns x rows"), the capacity `maxTiles` of a grid
shape is its number of slots (columns × rows), missing minimum dimensions
default to 0, and `minTiles` defaults to the schema minimum 1. -/
def expandLayoutDefinition (d : GridLayoutDefinition) : GridLayout :=
  { columns := d.columns
    rows := d.rows
    name := toString d.columns ++ "x" ++ toString d.rows
    minTiles := 1
    maxTiles := d.columns * d.rows
    minWidth := d.minWidth.getD 0
    minHeight := d.minHeight.getD 0
    orientation := d.orientation }

/-- Whether a catalog entry qualifies for a viewport: its minimum width and
height thresholds are both met (spec §4.2 step 1). -/
def qualifiesB (width height : Nat) (l : GridLayout) : Bool :=
  decide (l.minWidth ≤ width ∧ l.minHeight ≤ height)

/-- First element of the list whose capacity (`maxTiles`) is less than or
equal to every element's capacity: the smallest-capacity entry, earliest in
list order on ties. -/
def firstMinCap (xs : List GridLayout) : Option GridLayout :=
  xs.find? (fun x => xs.all (fun y => decide (x.maxTiles ≤ y.maxTiles)))

/-- First element of the list whose capacity (`maxTiles`) is greater than or
equal to every element's capacity: the largest-capacity entry, earliest in
list order on ties. -/
def firstMaxCap (xs : List GridLayout) : Option GridLayout :=
  xs.find? (fun x => xs.all (fun y => decide (y.maxTiles ≤ x.maxTiles)))

/-- Whether a catalog is ordered from smallest to largest capacity
(adjacent entries have non-decreasing `maxTiles`). -/
def sortedByCapB : List GridLayout → Bool
  | [] => true
  | [_] => true
  | a :: b :: rest => decide (a.maxTiles ≤ b.maxTiles) && sortedByCapB (b :: rest)

/-- The catalog entries qualifying for the viewport (spec §4.2 step 1). -/
def qualifyingList (catalog : List GridLayout) (width height : Nat) : List GridLayout :=
  catalog.filter (qualifiesB width height)

/-- The qualifying entries whose capacity covers the tile count
(spec §4.2 step 2). -/
def fittingList (catalog : List GridLayout) (tileCount width height : Nat) : List GridLayout :=
  (qualifyingList catalog width height).filter (fun l => decide (tileCount ≤ l.maxTiles))

/-- Modelled from the spec: the external library's `selectGridLayout`
(spec §4.2, `selectLayout(catalog, tileCount, width, height)`), whose source
is not part of this repository.  Filter the catalog by the viewport
thresholds; among qualifying entries prefer the smallest-capacity entry with
`maxTiles ≥ tileCount` (first in catalog order on capacity ties); if none
fits, take the qualifying entry with the largest capacity (first on ties);
if nothing qualifies at all, fall back to the first catalog entry.  Returns
`none` only for an empty catalog. -/
def selectGridLayout (catalog : List GridLayout) (tileCount width height : Nat) :
    Option GridLayout :=
  if fittingList catalog tileCount width height = [] then
    if qualifyingList catalog width height = [] then
      catalog.head?
    else
      firstMaxCap (qualifyingList catalog width height)
  else
    firstMinCap (fittingList catalog tileCount width height)

/-- The layout computation of `useGridLayout` in the source hook module:
when the measured width and height are both positive it delegates to
`selectGridLayout` over `CUSTOM_GRID_LAYOUTS`; otherwise it returns the
first catalog entry. -/
def useGridLayoutSelect (trackCount width height : Nat) : Option GridLayout :=
  if 0 < width ∧ 0 < height then
    selectGridLayout CUSTOM_GRID_LAYOUTS trackCount width height
  else
    CUSTOM_GRID_LAYOUTS.head?

/-- The pagination state exposed by the paginator (spec §3
`PaginationState`). -/
structure PaginationState (α : Type) where
  totalPageCount : Nat
  currentPage : Nat
  tracksOnPage : List α
  deriving DecidableEq, Repr

/-- Modelled from the spec: the external library's `usePagination`
(spec §4.3, `paginate(maxTiles, tracks, currentPage)`), whose source is not
part of this repository.  `maxTiles ≤ 0` is invalid input and is rejected;
otherwise `totalPageCount = ceil(len(tracks) / maxTiles)` with a minimum of
1, `currentPage` is clamped into `[0, totalPageCount - 1]`, and
`tracksOnPage` is the slice of `tracks` from `currentPage * maxTiles` to
`min(len(tracks), (currentPage + 1) * maxTiles)`. -/
def paginate {α : Type} (maxTiles : Int) (tracks : List α) (currentPage : Nat) :
    Option (PaginationState α) :=
  if maxTiles ≤ 0 then
    none
  else
    let m := maxTiles.toNat
    let total := max 1 ((tracks.length + m - 1) / m)
    let page := min currentPage (total - 1)
    some { totalPageCount := total
           currentPage := page
           tracksOnPage := (tracks.drop (page * m)).take m }

/-- Modelled from the spec: the `nextPage` navigation operation — clamp at
the upper boundary, no wraparound. -/
def nextPage (page total : Nat) : Nat :=
  min (page + 1) (total - 1)

/-- Modelled from the spec: the `prevPage` navigation operation — clamp at
the lower boundary 0, no wraparound (natural subtraction). -/
def prevPage (page : Nat) : Nat :=
  page - 1

/-- One size-observation notification delivered to the shared resize
observer: the observed element it targets (identified abstractly). -/
structure RSEntry where
  target : Nat
  payload : Nat
  deriving DecidableEq, Repr

/-- The animation-frame flush loop of `createResizeObserver` in the source
hook module: walk the accumulated entries in order, skip any entry whose
target was already triggered during this flush, and otherwise trigger the
target with that entry.  Returns the entries that actually reach the
target's callbacks, in order. -/
def resizeFlushLoop (entries : List RSEntry) (triggered : List Nat) : List RSEntry :=
  match entries with
  | [] => []
  | e :: rest =>
    if e.target ∈ triggered then
      resizeFlushLoop rest triggered
    else
      e :: resizeFlushLoop rest (e.target :: triggered)

/-- A single animation-frame flush over all entries accumulated since the
previous flush, starting from an empty triggered set (source: the
`requestAnimationFrame` callback in `createResizeObserver`). -/
def resizeFlush (entries : List RSEntry) : List RSEntry :=
  resizeFlushLoop entries []

/-- Sources and kinds of a track, as used by `Room.tsx`. -/
inductive TrackSource where
  | camera
  | microphone
  | screenShare
  | screenShareAudio
  | unknown
  deriving DecidableEq, Repr

/-- Kind of a publication (video or audio). -/
inductive TrackKind where
  | video
  | audio
  deriving DecidableEq, Repr

/-- The publication data of a track reference read by `Room.tsx`. -/
structure Publication where
  isMuted : Bool
  source : TrackSource
  kind : TrackKind
  trackName : String
  deriving DecidableEq, Repr

/-- A track reference or placeholder: participant identity, track source,
and the publication (absent for a placeholder, so `isTrackReference`
is `publication.isSome`). -/
structure TrackRef where
  identity : String
  source : TrackSource
  publication : Option Publication
  deriving DecidableEq, Repr

/-- `isUserTrack` from `Room.tsx`: the participant identity is nonempty, is
not the bridge service, and does not start with the egress service
prefix. -/
def isUserTrack (track : TrackRef) : Bool :=
  !(track.identity = "") &&
    !(track.identity = "livekit-bridge") &&
    !(track.identity.startsWith "egress-service")

/-- Whether a source is pushed directly into `participantTracks` by the
loop in `RenderRoomInfo` (microphone, screen share, screen-share audio). -/
def isPushedSource (s : TrackSource) : Bool :=
  s = TrackSource.microphone || s = TrackSource.screenShare ||
    s = TrackSource.screenShareAudio

/-- Lookup in the insertion-ordered participant map (JS `Map.get`). -/
def mapLookup (m : List (String × TrackRef)) (k : String) : Option TrackRef :=
  match m with
  | [] => none
  | (k2, v) :: rest => if k2 = k then some v else mapLookup rest k

/-- Update in the insertion-ordered participant map (JS `Map.set`):
overwriting an existing key keeps its original position, a new key is
appended. -/
def mapSet (m : List (String × TrackRef)) (k : String) (v : TrackRef) :
    List (String × TrackRef) :=
  match m with
  | [] => [(k, v)]
  | (k2, v2) :: rest =>
    if k2 = k then (k2, v) :: rest else (k2, v2) :: mapSet rest k v

/-- The loop body of `RenderRoomInfo` in `Room.tsx`, processing the
filtered tracks in order while threading the participant video map:
microphone / screen-share / screen-share-audio tracks are pushed; any other
track is skipped when muted or when the identity is empty, and otherwise
stored in the map keyed by identity when the key is absent or the track is
named "canvas".  Returns the pushed tracks (in order) and the final map. -/
def renderLoop (acc : List (String × TrackRef)) :
    List TrackRef → List TrackRef × List (String × TrackRef)
  | [] => ([], acc)
  | tr :: rest =>
    if isPushedSource tr.source then
      let r := renderLoop acc rest
      (tr :: r.1, r.2)
    else
      match tr.publication with
      | none => renderLoop acc rest
      | some pub =>
        if pub.isMuted then
          renderLoop acc rest
        else if tr.identity = "" then
          renderLoop acc rest
        else if (mapLookup acc tr.identity) = none ∨ pub.trackName = "canvas" then
          renderLoop (mapSet acc tr.identity tr) rest
        else
          renderLoop acc rest

/-- The `visibleTracks` computation of `RenderRoomInfo` in `Room.tsx`: keep
track references of user participants, run the loop, then append the
participant-map values (in insertion order) to the pushed tracks.  This is
the track list `CompositeTemplate` passes to the grid layout. -/
def renderRoomInfoVisible (tracks : List TrackRef) : List TrackRef :=
  let filteredTracks :=
    tracks.filter (fun tr => tr.publication.isSome && isUserTrack tr)
  let r := renderLoop [] filteredTracks
  r.1 ++ r.2.map Prod.snd

/-- A track that the `RenderRoomInfo` loop treats as a candidate for the
participant video map: not a pushed source, carrying an unmuted publication,
with a nonempty identity. -/
def eligibleCamB (tr : TrackRef) : Bool :=
  !isPushedSource tr.source &&
    (match tr.publication with
     | some pub => !pub.isMuted && !(tr.identity = "")
     | none => false)

/-- Whether a track's publication is named "canvas". -/
def canvasNamedB (tr : TrackRef) : Bool :=
  match tr.publication with
  | some pub => decide (pub.trackName = "canvas")
  | none => false

/-- The `LayoutDefinition` schema of the spec's data model: columns ≥ 1,
rows ≥ 1, a (nonempty) name, minTiles ≥ 1, maxTiles ≥ minTiles,
minWidth ≥ 0, minHeight ≥ 0, orientation absent or portrait/landscape. -/
def validLayout (l : GridLayout) : Prop :=
  1 ≤ l.columns ∧ 1 ≤ l.rows ∧ l.name ≠ "" ∧ 1 ≤ l.minTiles ∧
    l.minTiles ≤ l.maxTiles ∧ 0 ≤ l.minWidth ∧ 0 ≤ l.minHeight ∧
    (l.orientation = none ∨ l.orientation = some Orientation.portrait ∨
      l.orientation = some Orientation.landscape)

instance validLayoutDecidable (l : GridLayout) : Decidable (validLayout l) :=
  decidable_of_iff
    (1 ≤ l.columns ∧ 1 ≤ l.rows ∧ l.name ≠ "" ∧ 1 ≤ l.minTiles ∧
      l.minTiles ≤ l.maxTiles ∧ 0 ≤ l.minWidth ∧ 0 ≤ l.minHeight ∧
      (l.orientation = none ∨ l.orientation = some Orientation.portrait ∨
        l.orientation = some Orientation.landscape))
    Iff.rfl

/-- Concrete track: a muted screen-share publication of a user
participant. -/
def tMutedSS : TrackRef :=
  { identity := "alice", source := TrackSource.screenShare,
    publication := some { isMuted := true, source := TrackSource.screenShare,
                          kind := TrackKind.video, trackName := "ss" } }

/-- Concrete track: an unmuted camera video publication named "main". -/
def tBobMain : TrackRef :=
  { identity := "bob", source := TrackSource.camera,
    publication := some { isMuted := false, source := TrackSource.camera,
                          kind := TrackKind.video, trackName := "main" } }

/-- Concrete track: an unmuted camera audio publication named "canvas" of
the same participant. -/
def tBobCanvas : TrackRef :=
  { identity := "bob", source := TrackSource.camera,
    publication := some { isMuted := false, source := TrackSource.camera,
                          kind := TrackKind.audio, trackName := "canvas" } }

/-! Helper lemmas about the layout selector. -/

lemma mem_qualifyingList {catalog : List GridLayout} {w h : Nat} {l : GridLayout} :
    l ∈ qualifyingList catalog w h ↔ l ∈ catalog ∧ (l.minWidth ≤ w ∧ l.minHeight ≤ h) := by
  simp [qualifyingList, List.mem_filter, qualifiesB]

lemma mem_fittingList {catalog : List GridLayout} {t w h : Nat} {l : GridLayout} :
    l ∈ fittingList catalog t w h ↔
      (l ∈ catalog ∧ (l.minWidth ≤ w ∧ l.minHeight ≤ h)) ∧ t ≤ l.maxTiles := by
  simp [fittingList, List.mem_filter, mem_qualifyingList]

lemma fittingList_eq_filter {catalog : List GridLayout} {t w h : Nat} :
    fittingList catalog t w h =
      catalog.filter (fun l => decide (t ≤ l.maxTiles) && qualifiesB w h l) := by
  rw [fittingList, qualifyingList, List.filter_filter]

lemma exists_minCap :
    ∀ (xs : List GridLayout), xs ≠ [] →
      ∃ x ∈ xs, ∀ y ∈ xs, x.maxTiles ≤ y.maxTiles := by
  intro xs
  induction xs with
  | nil => intro h; exact absurd rfl h
  | cons x xs ih =>
    intro _
    rcases eq_or_ne xs [] with h | h
    · subst h
      exact ⟨x, by simp, by simp⟩
    · obtain ⟨m, hm, hmin⟩ := ih h
      by_cases hxm : x.maxTiles ≤ m.maxTiles
      · refine ⟨x, by simp, ?_⟩
        intro y hy
        rcases List.mem_cons.mp hy with rfl | hy
        · exact le_refl _
        · exact le_trans hxm (hmin y hy)
      · refine ⟨m, List.mem_cons_of_mem _ hm, ?_⟩
        intro y hy
        rcases List.mem_cons.mp hy with rfl | hy
        · exact le_of_not_le hxm
        · exact hmin y hy

lemma exists_maxCap :
    ∀ (xs : List GridLayout), xs ≠ [] →
      ∃ x ∈ xs, ∀ y ∈ xs, y.maxTiles ≤ x.maxTiles := by
  intro xs
  induction xs with
  | nil => intro h; exact absurd rfl h
  | cons x xs ih =>
    intro _
    rcases eq_or_ne xs [] with h | h
    · subst h
      exact ⟨x, by simp, by simp⟩
    · obtain ⟨m, hm, hmax⟩ := ih h
      by_cases hxm : m.maxTiles ≤ x.maxTiles
      · refine ⟨x, by simp, ?_⟩
        intro y hy
        rcases List.mem_cons.mp hy with rfl | hy
        · exact le_refl _
        · exact le_trans (hmax y hy) hxm
      · refine ⟨m, List.mem_cons_of_mem _ hm, ?_⟩
        intro y hy
        rcases List.mem_cons.mp hy with rfl | hy
        · exact le_of_not_le hxm
        · exact hmax y hy

lemma firstMinCap_isSome {xs : List GridLayout} (h : xs ≠ []) :
    ∃ r, firstMinCap xs = some r := by
  obtain ⟨x, hx, hmin⟩ := exists_minCap xs h
  have hs : (firstMinCap xs).isSome := by
    rw [firstMinCap, List.find?_isSome]
    refine ⟨x, hx, ?_⟩
    rw [List.all_eq_true]
    intro y hy
    exact decide_eq_true (hmin y hy)
  exact Option.isSome_iff_exists.mp hs

lemma firstMaxCap_isSome {xs : List GridLayout} (h : xs ≠ []) :
    ∃ r, firstMaxCap xs = some r := by
  obtain ⟨x, hx, hmax⟩ := exists_maxCap xs h
  have hs : (firstMaxCap xs).isSome := by
    rw [firstMaxCap, List.find?_isSome]
    refine ⟨x, hx, ?_⟩
    rw [List.all_eq_true]
    intro y hy
    exact decide_eq_true (hmax y hy)
  exact Option.isSome_iff_exists.mp hs

lemma firstMinCap_mem {xs : List GridLayout} {r : GridLayout}
    (h : firstMinCap xs = some r) : r ∈ xs :=
  List.mem_of_find?_eq_some h

lemma firstMaxCap_mem {xs : List GridLayout} {r : GridLayout}
    (h : firstMaxCap xs = some r) : r ∈ xs :=
  List.mem_of_find?_eq_some h

lemma firstMinCap_min {xs : List GridLayout} {r : GridLayout}
    (h : firstMinCap xs = some r) : ∀ y ∈ xs, r.maxTiles ≤ y.maxTiles := by
  intro y hy
  have := List.find?_some h
  rw [List.all_eq_true] at this
  exact of_decide_eq_true (this y hy)

lemma firstMaxCap_max {xs : List GridLayout} {r : GridLayout}
    (h : firstMaxCap xs = some r) : ∀ y ∈ xs, y.maxTiles ≤ r.maxTiles := by
  intro y hy
  have := List.find?_some h
  rw [List.all_eq_true] at this
  exact of_decide_eq_true (this y hy)

lemma find?_filter_split {α : Type} (p q : α → Bool) :
    ∀ (l : List α) (r : α), (l.filter p).find? q = some r →
      ∃ pre post, l = pre ++ r :: post ∧ ∀ a ∈ pre, p a = true → q a = false := by
  intro l
  induction l with
  | nil => intro r hr; simp at hr
  | cons x xs ih =>
    intro r hr
    by_cases hp : p x
    · rw [List.filter_cons_of_pos hp] at hr
      by_cases hq : q x
      · rw [List.find?_cons_of_pos _ hq] at hr
        obtain rfl : x = r := by injection hr
        exact ⟨[], xs, rfl, by intro a ha; simp at ha⟩
      · rw [List.find?_cons_of_neg _ hq] at hr
        obtain ⟨pre, post, hl, hpre⟩ := ih r hr
        refine ⟨x :: pre, post, by rw [hl, List.cons_append], ?_⟩
        intro a ha hpa
        rcases List.mem_cons.mp ha with rfl | ha
        · simpa using hq
        · exact hpre a ha hpa
    · rw [List.filter_cons_of_neg hp] at hr
      obtain ⟨pre, post, hl, hpre⟩ := ih r hr
      refine ⟨x :: pre, post, by rw [hl, List.cons_append], ?_⟩
      intro a ha hpa
      rcases List.mem_cons.mp ha with rfl | ha
      · exact absurd hpa hp
      · exact hpre a ha hpa

lemma selectGridLayout_of_fit {catalog : List GridLayout} {t w h : Nat}
    (hF : fittingList catalog t w h ≠ []) :
    selectGridLayout catalog t w h = firstMinCap (fittingList catalog t w h) := by
  rw [selectGridLayout, if_neg hF]

lemma selectGridLayout_of_nofit {catalog : List GridLayout} {t w h : Nat}
    (hF : fittingList catalog t w h = []) (hQ : qualifyingList catalog w h ≠ []) :
    selectGridLayout catalog t w h = firstMaxCap (qualifyingList catalog w h) := by
  rw [selectGridLayout, if_pos hF, if_neg hQ]

lemma selectGridLayout_of_noqual {catalog : List GridLayout} {t w h : Nat}
    (hQ : qualifyingList catalog w h = []) :
    selectGridLayout catalog t w h = catalog.head? := by
  have hF : fittingList catalog t w h = [] := by
    rw [fittingList, hQ, List.filter_nil]
  rw [selectGridLayout, if_pos hF, if_pos hQ]

lemma qualifiesB_iff {w h : Nat} {l : GridLayout} :
    qualifiesB w h l = true ↔ (l.minWidth ≤ w ∧ l.minHeight ≤ h) := by
  simp [qualifiesB]

lemma cap_lt_of_max_pred_false {xs : List GridLayout} {a : GridLayout}
    (hfa : xs.all (fun y => decide (y.maxTiles ≤ a.maxTiles)) = false) :
    ∃ y ∈ xs, a.maxTiles < y.maxTiles := by
  by_contra hcon
  push_neg at hcon
  have hall : xs.all (fun y => decide (y.maxTiles ≤ a.maxTiles)) = true := by
    rw [List.all_eq_true]
    intro y hy
    exact decide_eq_true (hcon y hy)
  rw [hall] at hfa
  simp at hfa

lemma cap_lt_of_min_pred_false {xs : List GridLayout} {a : GridLayout}
    (hfa : xs.all (fun y => decide (a.maxTiles ≤ y.maxTiles)) = false) :
    ∃ y ∈ xs, y.maxTiles < a.maxTiles := by
  by_contra hcon
  push_neg at hcon
  have hall : xs.all (fun y => decide (a.maxTiles ≤ y.maxTiles)) = true := by
    rw [List.all_eq_true]
    intro y hy
    exact decide_eq_true (hcon y hy)
  rw [hall] at hfa
  simp at hfa

lemma firstMinCap_cons_min {x : GridLayout} {xs : List GridLayout}
    (h : ∀ y ∈ x :: xs, x.maxTiles ≤ y.maxTiles) :
    firstMinCap (x :: xs) = some x := by
  unfold firstMinCap
  apply List.find?_cons_of_pos
  rw [List.all_eq_true]
  intro y hy
  exact decide_eq_true (h y hy)

/-- C1: among the catalog entries whose `minWidth` and `minHeight`
thresholds are met by the viewport, `selectGridLayout` returns the
smallest-capacity entry with `maxTiles ≥ tileCount`; when no qualifying
entry has enough capacity it returns the qualifying entry with the largest
`maxTiles`; and on identical effective capacity the candidate appearing
first in catalog order wins. -/
theorem selectGridLayout_correct (catalog : List GridLayout) (tileCount width height : Nat)
    (hq : ∃ l ∈ catalog, l.minWidth ≤ width ∧ l.minHeight ≤ height) :
    ∃ r, selectGridLayout catalog tileCount width height = some r ∧
      r ∈ catalog ∧ r.minWidth ≤ width ∧ r.minHeight ≤ height ∧
      ((∃ l ∈ catalog, (l.minWidth ≤ width ∧ l.minHeight ≤ height) ∧ tileCount ≤ l.maxTiles) →
        tileCount ≤ r.maxTiles ∧
        (∀ l ∈ catalog, l.minWidth ≤ width → l.minHeight ≤ height →
          tileCount ≤ l.maxTiles → r.maxTiles ≤ l.maxTiles) ∧
        ∃ pre post, catalog = pre ++ r :: post ∧
          ∀ l ∈ pre, l.minWidth ≤ width → l.minHeight ≤ height →
            tileCount ≤ l.maxTiles → r.maxTiles < l.maxTiles) ∧
      ((∀ l ∈ catalog, l.minWidth ≤ width → l.minHeight ≤ height → l.maxTiles < tileCount) →
        (∀ l ∈ catalog, l.minWidth ≤ width → l.minHeight ≤ height → l.maxTiles ≤ r.maxTiles) ∧
        ∃ pre post, catalog = pre ++ r :: post ∧
          ∀ l ∈ pre, l.minWidth ≤ width → l.minHeight ≤ height → l.maxTiles < r.maxTiles) := by
  obtain ⟨l0, hl0, hql0⟩ := hq
  have hQ : qualifyingList catalog width height ≠ [] :=
    List.ne_nil_of_mem (mem_qualifyingList.mpr ⟨hl0, hql0⟩)
  by_cases hF : fittingList catalog tileCount width height = []
  · obtain ⟨r, hr⟩ := firstMaxCap_isSome hQ
    have hsel : selectGridLayout catalog tileCount width height = some r := by
      rw [selectGridLayout_of_nofit hF hQ, hr]
    have hrQ := mem_qualifyingList.mp (firstMaxCap_mem hr)
    refine ⟨r, hsel, hrQ.1, hrQ.2.1, hrQ.2.2, ?_, ?_⟩
    · rintro ⟨l, hl, hql, hfit⟩
      have : l ∈ fittingList catalog tileCount width height :=
        mem_fittingList.mpr ⟨⟨hl, hql⟩, hfit⟩
      rw [hF] at this
      exact absurd this (List.not_mem_nil l)
    · intro _
      refine ⟨?_, ?_⟩
      · intro l hl hw hh
        exact firstMaxCap_max hr l (mem_qualifyingList.mpr ⟨hl, hw, hh⟩)
      · have hr' : (catalog.filter (qualifiesB width height)).find?
            (fun x => (qualifyingList catalog width height).all
              (fun y => decide (y.maxTiles ≤ x.maxTiles))) = some r := by
          simpa [firstMaxCap, qualifyingList] using hr
        obtain ⟨pre, post, hcat, hpre⟩ := find?_filter_split _ _ catalog r hr'
        refine ⟨pre, post, hcat, ?_⟩
        intro a ha hw hh
        have hfa := hpre a ha (qualifiesB_iff.mpr ⟨hw, hh⟩)
        obtain ⟨y, hyQ, hlt⟩ := cap_lt_of_max_pred_false hfa
        exact lt_of_lt_of_le hlt (firstMaxCap_max hr y hyQ)
  · obtain ⟨r, hr⟩ := firstMinCap_isSome hF
    have hsel : selectGridLayout catalog tileCount width height = some r := by
      rw [selectGridLayout_of_fit hF, hr]
    have hrF := mem_fittingList.mp (firstMinCap_mem hr)
    refine ⟨r, hsel, hrF.1.1, hrF.1.2.1, hrF.1.2.2, ?_, ?_⟩
    · intro _
      refine ⟨hrF.2, ?_, ?_⟩
      · intro l hl hw hh hfit
        exact firstMinCap_min hr l (mem_fittingList.mpr ⟨⟨hl, hw, hh⟩, hfit⟩)
      · have hr' : (catalog.filter
            (fun l => decide (tileCount ≤ l.maxTiles) && qualifiesB width height l)).find?
            (fun x => (fittingList catalog tileCount width height).all
              (fun y => decide (x.maxTiles ≤ y.maxTiles))) = some r := by
          rw [← fittingList_eq_filter]
          simpa [firstMinCap] using hr
        obtain ⟨pre, post, hcat, hpre⟩ := find?_filter_split _ _ catalog r hr'
        refine ⟨pre, post, hcat, ?_⟩
        intro a ha hw hh hfit
        have hpa : (decide (tileCount ≤ a.maxTiles) && qualifiesB width height a) = true := by
          rw [Bool.and_eq_true]
          exact ⟨decide_eq_true hfit, qualifiesB_iff.mpr ⟨hw, hh⟩⟩
        have hfa := hpre a ha hpa
        obtain ⟨y, hyF, hlt⟩ := cap_lt_of_min_pred_false hfa
        exact lt_of_le_of_lt (firstMinCap_min hr y hyF) hlt
    · intro hnone
      obtain ⟨l, hlF⟩ := List.exists_mem_of_ne_nil _ hF
      have hl := mem_fittingList.mp hlF
      exact absurd hl.2 (Nat.not_le_of_lt (hnone l hl.1.1 hl.1.2.1 hl.1.2.2))

/-- C1 witness: at the concrete input (catalog `CUSTOM_GRID_LAYOUTS`,
tileCount 5, viewport 500×400) the hypothesis holds and the selector
returns a catalog member. -/
theorem selectGridLayout_correct_witness :
    (∃ l ∈ CUSTOM_GRID_LAYOUTS, l.minWidth ≤ 500 ∧ l.minHeight ≤ 400) ∧
    ∃ r, selectGridLayout CUSTOM_GRID_LAYOUTS 5 500 400 = some r ∧
      r ∈ CUSTOM_GRID_LAYOUTS := by
  refine ⟨by decide, ?_⟩
  obtain ⟨r, hsel, hmem, -⟩ := selectGridLayout_correct CUSTOM_GRID_LAYOUTS 5 500 400 (by decide)
  exact ⟨r, hsel, hmem⟩

lemma selectGridLayout_custom_tileCount_zero (w h : Nat) :
    selectGridLayout CUSTOM_GRID_LAYOUTS 0 w h = some layout1x1 := by
  have hmem : ∀ l ∈ CUSTOM_GRID_LAYOUTS, 1 ≤ l.maxTiles := by decide
  have hshape : CUSTOM_GRID_LAYOUTS = layout1x1 :: CUSTOM_GRID_LAYOUTS.tail := rfl
  have hp1 : (decide ((0 : Nat) ≤ layout1x1.maxTiles) && qualifiesB w h layout1x1) = true := by
    rw [Bool.and_eq_true]
    exact ⟨decide_eq_true (Nat.zero_le _), qualifiesB_iff.mpr ⟨Nat.zero_le _, Nat.zero_le _⟩⟩
  have hFeq : fittingList CUSTOM_GRID_LAYOUTS 0 w h =
      layout1x1 :: CUSTOM_GRID_LAYOUTS.tail.filter
        (fun l => decide ((0 : Nat) ≤ l.maxTiles) && qualifiesB w h l) := by
    rw [fittingList_eq_filter]
    conv_lhs => rw [hshape]
    rw [List.filter_cons_of_pos
      (p := fun l => decide ((0 : Nat) ≤ l.maxTiles) && qualifiesB w h l) hp1]
  have hF : fittingList CUSTOM_GRID_LAYOUTS 0 w h ≠ [] := by
    rw [hFeq]
    exact List.cons_ne_nil _ _
  rw [selectGridLayout_of_fit hF, hFeq]
  apply firstMinCap_cons_min
  intro y hy
  rcases List.mem_cons.mp hy with rfl | hy
  · exact le_refl _
  · have hyc : y ∈ CUSTOM_GRID_LAYOUTS := by
      rw [hshape]
      exact List.mem_cons_of_mem _ (List.mem_of_mem_filter hy)
    exact hmem y hyc

/-- C2: when no catalog entry qualifies by the size thresholds the selector
falls back to the first catalog entry; the grid hook returns the first
(1×1) entry of `CUSTOM_GRID_LAYOUTS` whenever the measured width or height
is 0; and a tile count of 0 still yields the 1×1 entry, never an empty
result. -/
theorem selectGridLayout_fallback :
    (∀ (catalog : List GridLayout) (tileCount width height : Nat),
      (∀ l ∈ catalog, ¬(l.minWidth ≤ width ∧ l.minHeight ≤ height)) →
      selectGridLayout catalog tileCount width height = catalog.head?) ∧
    (∀ (trackCount width height : Nat), width = 0 ∨ height = 0 →
      useGridLayoutSelect trackCount width height = some layout1x1) ∧
    (∀ (width height : Nat), useGridLayoutSelect 0 width height = some layout1x1) := by
  refine ⟨?_, ?_, ?_⟩
  · intro catalog tileCount width height hnone
    have hQ : qualifyingList catalog width height = [] := by
      rcases hq : qualifyingList catalog width height with _ | ⟨l, rest⟩
      · rfl
      · have hl : l ∈ qualifyingList catalog width height := by
          rw [hq]
          exact List.mem_cons_self l rest
        have := mem_qualifyingList.mp hl
        exact absurd this.2 (hnone l this.1)
    exact selectGridLayout_of_noqual hQ
  · intro trackCount width height hzero
    have hneg : ¬(0 < width ∧ 0 < height) := by
      rcases hzero with rfl | rfl
      · rintro ⟨hw, -⟩
        exact Nat.lt_irrefl 0 hw
      · rintro ⟨-, hh⟩
        exact Nat.lt_irrefl 0 hh
    rw [useGridLayoutSelect, if_neg hneg]
    rfl
  · intro width height
    by_cases hpos : 0 < width ∧ 0 < height
    · rw [useGridLayoutSelect, if_pos hpos]
      exact selectGridLayout_custom_tileCount_zero width height
    · rw [useGridLayoutSelect, if_neg hpos]
      rfl

/-- C2 witness: at width 0 (and at a positive viewport with tile count 0)
the hook returns the 1×1 entry. -/
theorem selectGridLayout_fallback_witness :
    useGridLayoutSelect 7 0 400 = some layout1x1 ∧
    useGridLayoutSelect 0 1200 800 = some layout1x1 := by
  refine ⟨?_, ?_⟩
  · exact selectGridLayout_fallback.2.1 7 0 400 (Or.inl rfl)
  · exact selectGridLayout_fallback.2.2 1200 800

/-- C5: with the viewport fixed, increasing the tile count never decreases
the capacity of the layout chosen by `selectGridLayout` from a catalog
sorted by ascending capacity. -/
theorem selectGridLayout_monotone (catalog : List GridLayout) (t1 t2 width height : Nat)
    (hsorted : sortedByCapB catalog = true)
    (h12 : t1 ≤ t2) (r1 r2 : GridLayout)
    (e1 : selectGridLayout catalog t1 width height = some r1)
    (e2 : selectGridLayout catalog t2 width height = some r2) :
    r1.maxTiles ≤ r2.maxTiles := by
  by_cases hQ : qualifyingList catalog width height = []
  · rw [selectGridLayout_of_noqual hQ] at e1 e2
    obtain rfl : r1 = r2 := Option.some.inj (e1.symm.trans e2)
    exact le_refl _
  · by_cases hF2 : fittingList catalog t2 width height = []
    · rw [selectGridLayout_of_nofit hF2 hQ] at e2
      by_cases hF1 : fittingList catalog t1 width height = []
      · rw [selectGridLayout_of_nofit hF1 hQ] at e1
        obtain rfl : r1 = r2 := Option.some.inj (e1.symm.trans e2)
        exact le_refl _
      · rw [selectGridLayout_of_fit hF1] at e1
        have hr1F := firstMinCap_mem e1
        rw [fittingList] at hr1F
        exact firstMaxCap_max e2 r1 (List.mem_of_mem_filter hr1F)
    · rw [selectGridLayout_of_fit hF2] at e2
      have hr2F := mem_fittingList.mp (firstMinCap_mem e2)
      have hr2F1 : r2 ∈ fittingList catalog t1 width height :=
        mem_fittingList.mpr ⟨hr2F.1, le_trans h12 hr2F.2⟩
      have hF1 : fittingList catalog t1 width height ≠ [] := List.ne_nil_of_mem hr2F1
      rw [selectGridLayout_of_fit hF1] at e1
      exact firstMinCap_min e1 r2 hr2F1

/-- C5 witness: over `CUSTOM_GRID_LAYOUTS` (sorted by capacity) at viewport
720×400, raising the tile count from 5 to 7 moves the choice from the 3×2
layout (capacity 6) to the 4×2 layout (capacity 8). -/
theorem selectGridLayout_monotone_witness :
    sortedByCapB CUSTOM_GRID_LAYOUTS = true ∧
    ∃ r1 r2, selectGridLayout CUSTOM_GRID_LAYOUTS 5 720 400 = some r1 ∧
      selectGridLayout CUSTOM_GRID_LAYOUTS 7 720 400 = some r2 ∧
      r1.maxTiles ≤ r2.maxTiles := by
  have h1 : selectGridLayout CUSTOM_GRID_LAYOUTS 5 720 400 =
      some { columns := 3, rows := 2, name := "3x2", minTiles := 5, maxTiles := 6,
             minWidth := 700, minHeight := 0 } := by decide
  have h2 : selectGridLayout CUSTOM_GRID_LAYOUTS 7 720 400 =
      some { columns := 4, rows := 2, name := "4x2", minTiles := 7, maxTiles := 8,
             minWidth := 700, minHeight := 0 } := by decide
  exact ⟨by decide, _, _, h1, h2,
    selectGridLayout_monotone CUSTOM_GRID_LAYOUTS 5 7 720 400 (by decide) (by decide) _ _ h1 h2⟩

/-! Helper lemmas about the paginator. -/

lemma paginate_pos {α : Type} {maxTiles : Int} (hm : 0 < maxTiles)
    (tracks : List α) (currentPage : Nat) :
    paginate maxTiles tracks currentPage =
      some { totalPageCount := max 1 ((tracks.length + maxTiles.toNat - 1) / maxTiles.toNat)
             currentPage := min currentPage
               (max 1 ((tracks.length + maxTiles.toNat - 1) / maxTiles.toNat) - 1)
             tracksOnPage := (tracks.drop
               ((min currentPage
                 (max 1 ((tracks.length + maxTiles.toNat - 1) / maxTiles.toNat) - 1)) *
                   maxTiles.toNat)).take maxTiles.toNat } := by
  have hm2 : ¬ maxTiles ≤ 0 := by omega
  simp only [paginate, if_neg hm2]

lemma flatten_range_pages {α : Type} (m : Nat) (tracks : List α) :
    ∀ k, ((List.range k).map (fun p => (tracks.drop (p * m)).take m)).flatten =
      tracks.take (k * m) := by
  intro k
  induction k with
  | zero => simp
  | succ k ih =>
    rw [List.range_succ, List.map_append, List.flatten_append, ih, Nat.succ_mul,
      List.take_add]
    simp

lemma ceil_mul_ge (len m : Nat) (hm : 1 ≤ m) :
    len ≤ (max 1 ((len + m - 1) / m)) * m := by
  have hdm := Nat.div_add_mod (len + m - 1) m
  have hmod : (len + m - 1) % m < m := Nat.mod_lt _ hm
  set q := (len + m - 1) / m with hq
  have hle : len ≤ q * m := by
    rw [Nat.mul_comm] at hdm
    revert hdm hmod
    generalize q * m = s
    intro hdm hmod
    omega
  calc len ≤ q * m := hle
    _ ≤ (max 1 q) * m := Nat.mul_le_mul_right m (le_max_right 1 q)

/-- C3: for positive `maxTiles` the paginator yields
`totalPageCount = ceil(len(tracks) / maxTiles)` with minimum 1, the page
slice `tracks[currentPage*maxTiles : min(len, (currentPage+1)*maxTiles)]`
in input order, and the pages `0 .. totalPageCount-1` concatenated in order
are exactly the track list (partition without overlap or omission). -/
theorem paginate_pages_partition {α : Type} (maxTiles : Int) (tracks : List α)
    (currentPage : Nat) (hm : 1 ≤ maxTiles) :
    ∃ st, paginate maxTiles tracks currentPage = some st ∧
      st.totalPageCount = max 1 ((tracks.length + maxTiles.toNat - 1) / maxTiles.toNat) ∧
      (currentPage < st.totalPageCount →
        st.tracksOnPage =
          (tracks.take (min tracks.length ((currentPage + 1) * maxTiles.toNat))).drop
            (currentPage * maxTiles.toNat)) ∧
      ((List.range st.totalPageCount).map
        (fun p => (tracks.drop (p * maxTiles.toNat)).take maxTiles.toNat)).flatten =
        tracks := by
  have hm1 : 1 ≤ maxTiles.toNat := by omega
  rw [paginate_pos (by omega) tracks currentPage]
  refine ⟨_, rfl, rfl, ?_, ?_⟩
  · intro hlt
    simp only
    have hpage : min currentPage
        (max 1 ((tracks.length + maxTiles.toNat - 1) / maxTiles.toNat) - 1) = currentPage := by
      simp only at hlt
      omega
    rw [hpage, List.drop_take]
    rw [List.take_eq_take, List.length_drop]
    rw [Nat.succ_mul]
    generalize currentPage * maxTiles.toNat = a
    omega
  · simp only
    rw [flatten_range_pages]
    exact List.take_of_length_le (ceil_mul_ge tracks.length maxTiles.toNat hm1)

/-- C3 witness: six tiles per page over a five-track list give a single
page. -/
theorem paginate_pages_partition_witness :
    (1 : Int) ≤ 6 ∧
    ∃ st, paginate (6 : Int) [0, 1, 2, 3, 4] 0 = some st ∧ st.totalPageCount = 1 := by
  refine ⟨by decide, ?_⟩
  obtain ⟨st, hst, htot, -, -⟩ := paginate_pages_partition (6 : Int) [0, 1, 2, 3, 4] 0 (by decide)
  refine ⟨st, hst, ?_⟩
  rw [htot]
  decide

/-- C4: the pagination state keeps `currentPage` within
`[0, totalPageCount-1]` (the requested page is clamped), and the navigation
operations clamp at the boundaries: `nextPage` on the last page and
`prevPage` on page 0 leave the page unchanged, and neither ever leaves the
valid range. -/
theorem pagination_page_clamped {α : Type} (maxTiles : Int) (tracks : List α)
    (requestedPage : Nat) (st : PaginationState α)
    (hst : paginate maxTiles tracks requestedPage = some st) :
    st.currentPage ≤ st.totalPageCount - 1 ∧ 1 ≤ st.totalPageCount ∧
      nextPage st.currentPage st.totalPageCount ≤ st.totalPageCount - 1 ∧
      prevPage st.currentPage ≤ st.totalPageCount - 1 ∧
      (st.currentPage = st.totalPageCount - 1 →
        nextPage st.currentPage st.totalPageCount = st.currentPage) ∧
      (st.currentPage = 0 → prevPage st.currentPage = 0) := by
  by_cases hm : maxTiles ≤ 0
  · rw [paginate, if_pos hm] at hst
    exact absurd hst (by simp)
  · rw [paginate_pos (by omega) tracks requestedPage] at hst
    obtain rfl := (Option.some.inj hst).symm
    simp only [nextPage, prevPage]
    generalize (tracks.length + maxTiles.toNat - 1) / maxTiles.toNat = d
    omega

/-- C4 witness: 30 tracks at 25 per page, requested page 5: the state is
clamped to page 1 of 2 and `nextPage` on the last page is a no-op. -/
theorem pagination_page_clamped_witness :
    ∃ st, paginate (25 : Int) (List.range 30) 5 = some st ∧
      st.currentPage ≤ st.totalPageCount - 1 ∧
      nextPage st.currentPage st.totalPageCount = st.currentPage := by
  have hst : paginate (25 : Int) (List.range 30) 5 =
      some { totalPageCount := 2, currentPage := 1,
             tracksOnPage := [25, 26, 27, 28, 29] } := by decide
  obtain ⟨h1, h2, h3, h4, h5, h6⟩ := pagination_page_clamped (25 : Int) (List.range 30) 5 _ hst
  exact ⟨_, hst, h1, h5 (by decide)⟩

/-- C6: a non-positive `maxTiles` is rejected at the call boundary — the
paginator returns no state at all rather than a nonsensical one. -/
theorem paginate_rejects_nonpositive {α : Type} (maxTiles : Int) (tracks : List α)
    (currentPage : Nat) (hm : maxTiles ≤ 0) :
    paginate maxTiles tracks currentPage = none := by
  rw [paginate, if_pos hm]

/-- C6 witness: `maxTiles = 0` on a nonempty track list is rejected. -/
theorem paginate_rejects_nonpositive_witness :
    (0 : Int) ≤ 0 ∧ paginate (0 : Int) [0, 1, 2] 0 = none :=
  ⟨by decide, paginate_rejects_nonpositive (0 : Int) [0, 1, 2] 0 (by decide)⟩

/-- C7 counterexample: at viewport 500×400 only the two `minWidth = 0`
entries of `CUSTOM_GRID_LAYOUTS` qualify (the 3×2 entry needs
`minWidth = 700`), so with 5 tiles the selector returns the 1×2 layout with
capacity 2 — not a layout with `maxTiles ≥ 5`. -/
theorem scenario_500x400_counterexample :
    selectGridLayout CUSTOM_GRID_LAYOUTS 5 500 400 = some layout1x2 ∧
    layout1x2.maxTiles = 2 ∧ ¬ (5 : Nat) ≤ layout1x2.maxTiles := by
  decide

/-- C7 amended: at viewport 500×400 with 5 tiles the selector returns the
1×2 entry — whose `minWidth ≤ 500` and whose capacity (2) is the largest
among the qualifying entries, since no qualifying entry reaches 5 — and
`paginate(6, five tracks, page 0)` yields a single page holding all five
tracks. -/
theorem scenario_500x400_amended :
    (∃ r, selectGridLayout CUSTOM_GRID_LAYOUTS 5 500 400 = some r ∧
      r = layout1x2 ∧ r.minWidth ≤ 500 ∧
      ∀ l ∈ CUSTOM_GRID_LAYOUTS, l.minWidth ≤ 500 → l.minHeight ≤ 400 →
        l.maxTiles ≤ r.maxTiles) ∧
    paginate (6 : Int) [0, 1, 2, 3, 4] 0 =
      some { totalPageCount := 1, currentPage := 0, tracksOnPage := [0, 1, 2, 3, 4] } := by
  constructor
  · exact ⟨layout1x2, by decide, rfl, by decide, by decide⟩
  · decide

/-- C8: every entry of both catalogs (the `JKTP` one after its expansion to
the full schema) satisfies the `LayoutDefinition` schema, and both catalogs
are ordered from smallest to largest capacity. -/
theorem catalogs_satisfy_schema :
    (∀ l ∈ CUSTOM_GRID_LAYOUTS, validLayout l) ∧
    sortedByCapB CUSTOM_GRID_LAYOUTS = true ∧
    (∀ l ∈ JKTP_GRID_LAYOUTS.map expandLayoutDefinition, validLayout l) ∧
    sortedByCapB (JKTP_GRID_LAYOUTS.map expandLayoutDefinition) = true := by
  decide

lemma resizeFlushLoop_spec :
    ∀ (entries : List RSEntry) (triggered : List Nat),
      (∀ e ∈ resizeFlushLoop entries triggered, e ∈ entries ∧ e.target ∉ triggered) ∧
      ((resizeFlushLoop entries triggered).map RSEntry.target).Nodup ∧
      (∀ tgt, tgt ∉ triggered →
        ((∃ e ∈ entries, e.target = tgt) ↔
          ∃ e ∈ resizeFlushLoop entries triggered, e.target = tgt)) := by
  intro entries
  induction entries with
  | nil =>
    intro triggered
    refine ⟨by simp [resizeFlushLoop], by simp [resizeFlushLoop], ?_⟩
    intro tgt _
    simp [resizeFlushLoop]
  | cons e rest ih =>
    intro triggered
    by_cases he : e.target ∈ triggered
    · have hstep : resizeFlushLoop (e :: rest) triggered = resizeFlushLoop rest triggered := by
        simp only [resizeFlushLoop, if_pos he]
      obtain ⟨ih1, ih2, ih3⟩ := ih triggered
      rw [hstep]
      refine ⟨?_, ih2, ?_⟩
      · intro x hx
        obtain ⟨hx1, hx2⟩ := ih1 x hx
        exact ⟨List.mem_cons_of_mem _ hx1, hx2⟩
      · intro tgt htgt
        have hne : ¬ tgt = e.target := fun h => htgt (h ▸ he)
        rw [← ih3 tgt htgt]
        constructor
        · rintro ⟨x, hx, hxt⟩
          rcases List.mem_cons.mp hx with rfl | hx
          · exact absurd hxt.symm hne
          · exact ⟨x, hx, hxt⟩
        · rintro ⟨x, hx, hxt⟩
          exact ⟨x, List.mem_cons_of_mem _ hx, hxt⟩
    · have hstep : resizeFlushLoop (e :: rest) triggered =
          e :: resizeFlushLoop rest (e.target :: triggered) := by
        simp only [resizeFlushLoop, if_neg he]
      obtain ⟨ih1, ih2, ih3⟩ := ih (e.target :: triggered)
      rw [hstep]
      refine ⟨?_, ?_, ?_⟩
      · intro x hx
        rcases List.mem_cons.mp hx with rfl | hx
        · exact ⟨List.mem_cons_self _ _, he⟩
        · obtain ⟨hx1, hx2⟩ := ih1 x hx
          exact ⟨List.mem_cons_of_mem _ hx1, fun hc => hx2 (List.mem_cons_of_mem _ hc)⟩
      · rw [List.map_cons, List.nodup_cons]
        refine ⟨?_, ih2⟩
        intro hmem
        obtain ⟨x, hx, hxt⟩ := List.mem_map.mp hmem
        obtain ⟨-, hx2⟩ := ih1 x hx
        exact hx2 (hxt ▸ List.mem_cons_self _ _)
      · intro tgt htgt
        by_cases hte : tgt = e.target
        · subst hte
          constructor
          · intro _
            exact ⟨e, List.mem_cons_self _ _, rfl⟩
          · intro _
            exact ⟨e, List.mem_cons_self _ _, rfl⟩
        · have htgt2 : tgt ∉ e.target :: triggered := by
            intro hc
            rcases List.mem_cons.mp hc with h | h
            · exact hte h
            · exact htgt h
          constructor
          · rintro ⟨x, hx, hxt⟩
            rcases List.mem_cons.mp hx with rfl | hx
            · exact absurd hxt.symm hte
            · obtain ⟨y, hy, hyt⟩ := (ih3 tgt htgt2).mp ⟨x, hx, hxt⟩
              exact ⟨y, List.mem_cons_of_mem _ hy, hyt⟩
          · rintro ⟨x, hx, hxt⟩
            rcases List.mem_cons.mp hx with rfl | hx
            · exact absurd hxt.symm hte
            · obtain ⟨y, hy, hyt⟩ := (ih3 tgt htgt2).mpr ⟨x, hx, hxt⟩
              exact ⟨y, List.mem_cons_of_mem _ hy, hyt⟩

/-- C9: one animation-frame flush over the notifications accumulated since
the previous flush triggers each observed element at most once — the
triggered targets are duplicate-free, so each target's callback list runs
at most once per flush — every delivered entry is one of the accumulated
notifications, and precisely the elements with at least one accumulated
notification are triggered. -/
theorem resizeFlush_coalesces (entries : List RSEntry) :
    ((resizeFlush entries).map RSEntry.target).Nodup ∧
    (∀ tgt, ((resizeFlush entries).map RSEntry.target).count tgt ≤ 1) ∧
    (∀ e ∈ resizeFlush entries, e ∈ entries) ∧
    (∀ tgt, (∃ e ∈ entries, e.target = tgt) ↔
      ∃ e ∈ resizeFlush entries, e.target = tgt) := by
  obtain ⟨h1, h2, h3⟩ := resizeFlushLoop_spec entries []
  refine ⟨h2, ?_, fun e he => (h1 e he).1, fun tgt => h3 tgt (List.not_mem_nil tgt)⟩
  intro tgt
  exact List.nodup_iff_count_le_one.mp h2 tgt

/-- C9 witness: flushing three accumulated notifications for two elements
triggers each element once. -/
theorem resizeFlush_coalesces_witness :
    ((resizeFlush [⟨1, 10⟩, ⟨2, 11⟩, ⟨1, 12⟩]).map RSEntry.target).Nodup ∧
    (⟨2, 11⟩ : RSEntry) ∈ ([⟨1, 10⟩, ⟨2, 11⟩, ⟨1, 12⟩] : List RSEntry) := by
  obtain ⟨h1, -, h3, -⟩ := resizeFlush_coalesces [⟨1, 10⟩, ⟨2, 11⟩, ⟨1, 12⟩]
  exact ⟨h1, h3 ⟨2, 11⟩ (by decide)⟩

/-! Helper lemmas about the participant map and the `RenderRoomInfo` loop. -/

lemma renderLoop_cons_pushed {tr : TrackRef} {rest : List TrackRef}
    {acc : List (String × TrackRef)} (hp : isPushedSource tr.source = true) :
    renderLoop acc (tr :: rest) =
      ((tr :: (renderLoop acc rest).1), (renderLoop acc rest).2) := by
  simp only [renderLoop, hp, if_true]

lemma renderLoop_cons_nopub {tr : TrackRef} {rest : List TrackRef}
    {acc : List (String × TrackRef)} (hp : isPushedSource tr.source = false)
    (hpub : tr.publication = none) :
    renderLoop acc (tr :: rest) = renderLoop acc rest := by
  simp only [renderLoop, hp, hpub, Bool.false_eq_true, if_false]

lemma renderLoop_cons_muted {tr : TrackRef} {rest : List TrackRef}
    {acc : List (String × TrackRef)} {pub : Publication}
    (hp : isPushedSource tr.source = false) (hpub : tr.publication = some pub)
    (hm : pub.isMuted = true) :
    renderLoop acc (tr :: rest) = renderLoop acc rest := by
  simp only [renderLoop, hp, hpub, hm, Bool.false_eq_true, if_false, if_true]

lemma renderLoop_cons_noid {tr : TrackRef} {rest : List TrackRef}
    {acc : List (String × TrackRef)} {pub : Publication}
    (hp : isPushedSource tr.source = false) (hpub : tr.publication = some pub)
    (hm : pub.isMuted = false) (hid : tr.identity = "") :
    renderLoop acc (tr :: rest) = renderLoop acc rest := by
  simp only [renderLoop, hp, hpub, hm, hid, Bool.false_eq_true, if_false, if_true]

lemma renderLoop_cons_set {tr : TrackRef} {rest : List TrackRef}
    {acc : List (String × TrackRef)} {pub : Publication}
    (hp : isPushedSource tr.source = false) (hpub : tr.publication = some pub)
    (hm : pub.isMuted = false) (hid : ¬ tr.identity = "")
    (hcond : mapLookup acc tr.identity = none ∨ pub.trackName = "canvas") :
    renderLoop acc (tr :: rest) = renderLoop (mapSet acc tr.identity tr) rest := by
  simp only [renderLoop, hp, hpub, hm, Bool.false_eq_true, if_false]
  rw [if_neg hid, if_pos hcond]

lemma renderLoop_cons_skip {tr : TrackRef} {rest : List TrackRef}
    {acc : List (String × TrackRef)} {pub : Publication}
    (hp : isPushedSource tr.source = false) (hpub : tr.publication = some pub)
    (hm : pub.isMuted = false) (hid : ¬ tr.identity = "")
    (hcond : ¬ (mapLookup acc tr.identity = none ∨ pub.trackName = "canvas")) :
    renderLoop acc (tr :: rest) = renderLoop acc rest := by
  simp only [renderLoop, hp, hpub, hm, Bool.false_eq_true, if_false]
  rw [if_neg hid, if_neg hcond]

lemma mapLookup_mem {m : List (String × TrackRef)} {k : String} {v : TrackRef}
    (h : mapLookup m k = some v) : (k, v) ∈ m := by
  induction m with
  | nil => simp [mapLookup] at h
  | cons kv rest ih =>
    rcases kv with ⟨k2, v2⟩
    by_cases hk : k2 = k
    · subst hk
      rw [mapLookup, if_pos rfl] at h
      obtain rfl := Option.some.inj h
      exact List.mem_cons_self _ _
    · rw [mapLookup, if_neg hk] at h
      exact List.mem_cons_of_mem _ (ih h)

lemma mem_mapSet {m : List (String × TrackRef)} {k : String} {v : TrackRef}
    {kv : String × TrackRef} (h : kv ∈ mapSet m k v) : kv = (k, v) ∨ kv ∈ m := by
  induction m with
  | nil =>
    rw [mapSet] at h
    rcases List.mem_cons.mp h with rfl | h
    · exact Or.inl rfl
    · simp at h
  | cons kv2 rest ih =>
    rcases kv2 with ⟨k2, v2⟩
    by_cases hk : k2 = k
    · subst hk
      rw [mapSet, if_pos rfl] at h
      rcases List.mem_cons.mp h with rfl | h
      · exact Or.inl rfl
      · exact Or.inr (List.mem_cons_of_mem _ h)
    · rw [mapSet, if_neg hk] at h
      rcases List.mem_cons.mp h with rfl | h
      · exact Or.inr (List.mem_cons_self _ _)
      · rcases ih h with h1 | h1
        · exact Or.inl h1
        · exact Or.inr (List.mem_cons_of_mem _ h1)

lemma mapSet_keys_of_mem {m : List (String × TrackRef)} {k : String} (v : TrackRef)
    (hk : k ∈ m.map Prod.fst) :
    (mapSet m k v).map Prod.fst = m.map Prod.fst := by
  induction m with
  | nil => simp at hk
  | cons kv rest ih =>
    rcases kv with ⟨k2, v2⟩
    by_cases hk2 : k2 = k
    · subst hk2
      rw [mapSet, if_pos rfl, List.map_cons, List.map_cons]
    · rw [mapSet, if_neg hk2, List.map_cons, List.map_cons]
      rw [List.map_cons] at hk
      rcases List.mem_cons.mp hk with h | h
      · exact absurd h.symm hk2
      · rw [ih h]

lemma mapSet_keys_of_not_mem {m : List (String × TrackRef)} {k : String} (v : TrackRef)
    (hk : k ∉ m.map Prod.fst) :
    (mapSet m k v).map Prod.fst = m.map Prod.fst ++ [k] := by
  induction m with
  | nil => simp [mapSet]
  | cons kv rest ih =>
    rcases kv with ⟨k2, v2⟩
    rw [List.map_cons] at hk
    have hk2 : ¬ k2 = k := by
      intro h
      exact hk (h ▸ List.mem_cons_self _ _)
    have hkrest : k ∉ rest.map Prod.fst := fun h => hk (List.mem_cons_of_mem _ h)
    rw [mapSet, if_neg hk2, List.map_cons, List.map_cons, ih hkrest, List.cons_append]

lemma mapSet_keys_nodup {m : List (String × TrackRef)} {k : String} {v : TrackRef}
    (h : (m.map Prod.fst).Nodup) : ((mapSet m k v).map Prod.fst).Nodup := by
  by_cases hk : k ∈ m.map Prod.fst
  · rw [mapSet_keys_of_mem v hk]
    exact h
  · rw [mapSet_keys_of_not_mem v hk]
    rw [List.nodup_append]
    refine ⟨h, List.nodup_singleton k, ?_⟩
    intro a ha hb
    rw [List.mem_singleton] at hb
    subst hb
    exact hk ha

lemma mapLookup_set_self (m : List (String × TrackRef)) (k : String) (v : TrackRef) :
    mapLookup (mapSet m k v) k = some v := by
  induction m with
  | nil => rw [mapSet, mapLookup, if_pos rfl]
  | cons kv rest ih =>
    rcases kv with ⟨k2, v2⟩
    by_cases hk : k2 = k
    · subst hk
      rw [mapSet, if_pos rfl, mapLookup, if_pos rfl]
    · rw [mapSet, if_neg hk, mapLookup, if_neg hk]
      exact ih

lemma mapLookup_set_other (m : List (String × TrackRef)) {k k2 : String} (v : TrackRef)
    (hne : ¬ k2 = k) : mapLookup (mapSet m k v) k2 = mapLookup m k2 := by
  induction m with
  | nil =>
    simp only [mapSet, mapLookup]
    rw [if_neg (fun h => hne h.symm)]
  | cons kv rest ih =>
    rcases kv with ⟨ka, va⟩
    by_cases hka : ka = k
    · subst hka
      rw [mapSet, if_pos rfl, mapLookup, mapLookup]
      rw [if_neg (fun h => hne h.symm), if_neg (fun h => hne h.symm)]
    · rw [mapSet, if_neg hka, mapLookup, mapLookup]
      by_cases hk2 : ka = k2
      · rw [if_pos hk2, if_pos hk2]
      · rw [if_neg hk2, if_neg hk2]
        exact ih

lemma renderLoop_fst :
    ∀ (l : List TrackRef) (acc : List (String × TrackRef)),
      (renderLoop acc l).1 = l.filter (fun tr => isPushedSource tr.source) := by
  intro l
  induction l with
  | nil => intro acc; simp [renderLoop]
  | cons tr rest ih =>
    intro acc
    by_cases hp : isPushedSource tr.source = true
    · rw [renderLoop_cons_pushed hp,
        List.filter_cons_of_pos (p := fun a : TrackRef => isPushedSource a.source) hp]
      simp only
      rw [ih acc]
    · have hp' : isPushedSource tr.source = false := by simpa using hp
      rw [List.filter_cons_of_neg (p := fun a : TrackRef => isPushedSource a.source) hp]
      cases hpub : tr.publication with
      | none =>
        rw [renderLoop_cons_nopub hp' hpub]
        exact ih acc
      | some pub =>
        by_cases hm : pub.isMuted = true
        · rw [renderLoop_cons_muted hp' hpub hm]
          exact ih acc
        · have hm' : pub.isMuted = false := by simpa using hm
          by_cases hid : tr.identity = ""
          · rw [renderLoop_cons_noid hp' hpub hm' hid]
            exact ih acc
          · by_cases hcond : mapLookup acc tr.identity = none ∨ pub.trackName = "canvas"
            · rw [renderLoop_cons_set hp' hpub hm' hid hcond]
              exact ih _
            · rw [renderLoop_cons_skip hp' hpub hm' hid hcond]
              exact ih acc

lemma renderLoop_snd_inv :
    ∀ (l : List TrackRef) (acc : List (String × TrackRef)),
      (∀ kv ∈ acc, kv.2.identity = kv.1 ∧ eligibleCamB kv.2 = true) →
      ∀ kv ∈ (renderLoop acc l).2, kv.2.identity = kv.1 ∧ eligibleCamB kv.2 = true := by
  intro l
  induction l with
  | nil =>
    intro acc hacc
    simpa [renderLoop] using hacc
  | cons tr rest ih =>
    intro acc hacc
    by_cases hp : isPushedSource tr.source = true
    · rw [renderLoop_cons_pushed hp]
      exact ih acc hacc
    · have hp' : isPushedSource tr.source = false := by simpa using hp
      cases hpub : tr.publication with
      | none =>
        rw [renderLoop_cons_nopub hp' hpub]
        exact ih acc hacc
      | some pub =>
        by_cases hm : pub.isMuted = true
        · rw [renderLoop_cons_muted hp' hpub hm]
          exact ih acc hacc
        · have hm' : pub.isMuted = false := by simpa using hm
          by_cases hid : tr.identity = ""
          · rw [renderLoop_cons_noid hp' hpub hm' hid]
            exact ih acc hacc
          · by_cases hcond : mapLookup acc tr.identity = none ∨ pub.trackName = "canvas"
            · rw [renderLoop_cons_set hp' hpub hm' hid hcond]
              apply ih
              intro kv hkv
              rcases mem_mapSet hkv with rfl | hkv2
              · refine ⟨rfl, ?_⟩
                simp [eligibleCamB, hp', hpub, hm', hid]
              · exact hacc kv hkv2
            · rw [renderLoop_cons_skip hp' hpub hm' hid hcond]
              exact ih acc hacc

lemma renderLoop_snd_mem :
    ∀ (l : List TrackRef) (acc : List (String × TrackRef)) (kv : String × TrackRef),
      kv ∈ (renderLoop acc l).2 → kv ∈ acc ∨ kv.2 ∈ l := by
  intro l
  induction l with
  | nil =>
    intro acc kv hkv
    rw [renderLoop] at hkv
    exact Or.inl hkv
  | cons tr rest ih =>
    intro acc kv hkv
    by_cases hp : isPushedSource tr.source = true
    · rw [renderLoop_cons_pushed hp] at hkv
      rcases ih acc kv hkv with h | h
      · exact Or.inl h
      · exact Or.inr (List.mem_cons_of_mem _ h)
    · have hp' : isPushedSource tr.source = false := by simpa using hp
      cases hpub : tr.publication with
      | none =>
        rw [renderLoop_cons_nopub hp' hpub] at hkv
        rcases ih acc kv hkv with h | h
        · exact Or.inl h
        · exact Or.inr (List.mem_cons_of_mem _ h)
      | some pub =>
        by_cases hm : pub.isMuted = true
        · rw [renderLoop_cons_muted hp' hpub hm] at hkv
          rcases ih acc kv hkv with h | h
          · exact Or.inl h
          · exact Or.inr (List.mem_cons_of_mem _ h)
        · have hm' : pub.isMuted = false := by simpa using hm
          by_cases hid : tr.identity = ""
          · rw [renderLoop_cons_noid hp' hpub hm' hid] at hkv
            rcases ih acc kv hkv with h | h
            · exact Or.inl h
            · exact Or.inr (List.mem_cons_of_mem _ h)
          · by_cases hcond : mapLookup acc tr.identity = none ∨ pub.trackName = "canvas"
            · rw [renderLoop_cons_set hp' hpub hm' hid hcond] at hkv
              rcases ih _ kv hkv with h | h
              · rcases mem_mapSet h with rfl | h2
                · exact Or.inr (List.mem_cons_self _ _)
                · exact Or.inl h2
              · exact Or.inr (List.mem_cons_of_mem _ h)
            · rw [renderLoop_cons_skip hp' hpub hm' hid hcond] at hkv
              rcases ih acc kv hkv with h | h
              · exact Or.inl h
              · exact Or.inr (List.mem_cons_of_mem _ h)

lemma renderLoop_snd_keys_nodup :
    ∀ (l : List TrackRef) (acc : List (String × TrackRef)),
      ((acc.map Prod.fst).Nodup) → (((renderLoop acc l).2.map Prod.fst).Nodup) := by
  intro l
  induction l with
  | nil =>
    intro acc hacc
    rw [renderLoop]
    exact hacc
  | cons tr rest ih =>
    intro acc hacc
    by_cases hp : isPushedSource tr.source = true
    · rw [renderLoop_cons_pushed hp]
      exact ih acc hacc
    · have hp' : isPushedSource tr.source = false := by simpa using hp
      cases hpub : tr.publication with
      | none =>
        rw [renderLoop_cons_nopub hp' hpub]
        exact ih acc hacc
      | some pub =>
        by_cases hm : pub.isMuted = true
        · rw [renderLoop_cons_muted hp' hpub hm]
          exact ih acc hacc
        · have hm' : pub.isMuted = false := by simpa using hm
          by_cases hid : tr.identity = ""
          · rw [renderLoop_cons_noid hp' hpub hm' hid]
            exact ih acc hacc
          · by_cases hcond : mapLookup acc tr.identity = none ∨ pub.trackName = "canvas"
            · rw [renderLoop_cons_set hp' hpub hm' hid hcond]
              exact ih _ (mapSet_keys_nodup hacc)
            · rw [renderLoop_cons_skip hp' hpub hm' hid hcond]
              exact ih acc hacc

lemma renderLoop_canvas :
    ∀ (l : List TrackRef) (acc : List (String × TrackRef)) (id : String),
      ((∃ tr ∈ l, eligibleCamB tr = true ∧ tr.identity = id ∧ canvasNamedB tr = true) ∨
        (∃ v, mapLookup acc id = some v ∧ canvasNamedB v = true)) →
      ∃ v, mapLookup (renderLoop acc l).2 id = some v ∧ canvasNamedB v = true := by
  intro l
  induction l with
  | nil =>
    intro acc id hprem
    rw [renderLoop]
    rcases hprem with ⟨tr, htr, -⟩ | hv
    · simp at htr
    · exact hv
  | cons tr rest ih =>
    intro acc id hprem
    by_cases hp : isPushedSource tr.source = true
    · rw [renderLoop_cons_pushed hp]
      apply ih
      rcases hprem with ⟨tr2, htr2, hel, hid2, hcv⟩ | hv
      · rcases List.mem_cons.mp htr2 with rfl | htr2
        · rw [eligibleCamB, hp] at hel
          simp at hel
        · exact Or.inl ⟨tr2, htr2, hel, hid2, hcv⟩
      · exact Or.inr hv
    · have hp' : isPushedSource tr.source = false := by simpa using hp
      cases hpub : tr.publication with
      | none =>
        rw [renderLoop_cons_nopub hp' hpub]
        apply ih
        rcases hprem with ⟨tr2, htr2, hel, hid2, hcv⟩ | hv
        · rcases List.mem_cons.mp htr2 with rfl | htr2
          · rw [eligibleCamB, hpub] at hel
            simp at hel
          · exact Or.inl ⟨tr2, htr2, hel, hid2, hcv⟩
        · exact Or.inr hv
      | some pub =>
        by_cases hm : pub.isMuted = true
        · rw [renderLoop_cons_muted hp' hpub hm]
          apply ih
          rcases hprem with ⟨tr2, htr2, hel, hid2, hcv⟩ | hv
          · rcases List.mem_cons.mp htr2 with rfl | htr2
            · rw [eligibleCamB, hpub] at hel
              simp [hm] at hel
            · exact Or.inl ⟨tr2, htr2, hel, hid2, hcv⟩
          · exact Or.inr hv
        · have hm' : pub.isMuted = false := by simpa using hm
          by_cases hid : tr.identity = ""
          · rw [renderLoop_cons_noid hp' hpub hm' hid]
            apply ih
            rcases hprem with ⟨tr2, htr2, hel, hid2, hcv⟩ | hv
            · rcases List.mem_cons.mp htr2 with rfl | htr2
              · rw [eligibleCamB, hpub] at hel
                simp [hid] at hel
              · exact Or.inl ⟨tr2, htr2, hel, hid2, hcv⟩
            · exact Or.inr hv
          · by_cases hcond : mapLookup acc tr.identity = none ∨ pub.trackName = "canvas"
            · rw [renderLoop_cons_set hp' hpub hm' hid hcond]
              apply ih
              rcases hprem with ⟨tr2, htr2, hel, hid2, hcv⟩ | ⟨v, hv, hcv⟩
              · rcases List.mem_cons.mp htr2 with rfl | htr2
                · subst hid2
                  exact Or.inr ⟨tr2, mapLookup_set_self acc tr2.identity tr2, hcv⟩
                · exact Or.inl ⟨tr2, htr2, hel, hid2, hcv⟩
              · by_cases hide : id = tr.identity
                · subst hide
                  have hcanvas : pub.trackName = "canvas" := by
                    rcases hcond with hnone | hcanvas
                    · rw [hv] at hnone
                      exact absurd hnone (by simp)
                    · exact hcanvas
                  refine Or.inr ⟨tr, mapLookup_set_self acc tr.identity tr, ?_⟩
                  rw [canvasNamedB, hpub]
                  exact decide_eq_true hcanvas
                · refine Or.inr ⟨v, ?_, hcv⟩
                  rw [mapLookup_set_other acc tr hide]
                  exact hv
            · rw [renderLoop_cons_skip hp' hpub hm' hid hcond]
              apply ih
              rcases hprem with ⟨tr2, htr2, hel, hid2, hcv⟩ | hv
              · rcases List.mem_cons.mp htr2 with rfl | htr2
                · exfalso
                  apply hcond
                  right
                  rw [canvasNamedB, hpub] at hcv
                  exact of_decide_eq_true hcv
                · exact Or.inl ⟨tr2, htr2, hel, hid2, hcv⟩
              · exact Or.inr hv

lemma count_values_by_identity :
    ∀ (m : List (String × TrackRef)) (id : String),
      (m.map Prod.fst).Nodup → (∀ kv ∈ m, kv.2.identity = kv.1) →
      (m.map Prod.snd).countP (fun v => decide (v.identity = id)) ≤ 1 := by
  intro m
  induction m with
  | nil =>
    intro id _ _
    simp
  | cons kv rest ih =>
    intro id hkeys hid
    rcases kv with ⟨k, v⟩
    rw [List.map_cons, List.countP_cons]
    have hkeys2 : (rest.map Prod.fst).Nodup := (List.nodup_cons.mp (by simpa using hkeys)).2
    have hid2 : ∀ kv ∈ rest, kv.2.identity = kv.1 :=
      fun kv hkv => hid kv (List.mem_cons_of_mem _ hkv)
    by_cases hvid : v.identity = id
    · have hk : v.identity = k := hid (k, v) (List.mem_cons_self _ _)
      have hidk : id = k := hvid ▸ hk
      have hknotin : k ∉ rest.map Prod.fst := (List.nodup_cons.mp (by simpa using hkeys)).1
      have hzero : (rest.map Prod.snd).countP (fun v => decide (v.identity = id)) = 0 := by
        rw [List.countP_eq_zero]
        intro a ha
        obtain ⟨⟨k2, v2⟩, hkv2, rfl⟩ := List.mem_map.mp ha
        have h2 : v2.identity = k2 := hid (k2, v2) (List.mem_cons_of_mem _ hkv2)
        simp only [decide_eq_true_eq]
        intro hcon
        apply hknotin
        have hk2 : k2 = k := by
          rw [← h2, hcon, hidk]
        rw [← hk2]
        exact List.mem_map_of_mem Prod.fst hkv2
      rw [hzero, if_pos (decide_eq_true hvid)]
    · rw [if_neg (by simpa using hvid)]
      have := ih id hkeys2 hid2
      omega

lemma eligibleCamB_not_muted {tr : TrackRef} {p : Publication}
    (hp : tr.publication = some p) (hel : eligibleCamB tr = true) :
    p.isMuted = false := by
  rw [eligibleCamB, hp] at hel
  rw [Bool.and_eq_true] at hel
  obtain ⟨-, h2⟩ := hel
  rw [Bool.and_eq_true] at h2
  obtain ⟨h3, -⟩ := h2
  simpa using h3

/-- C10 counterexample: the filtered track list of `RenderRoomInfo` keeps a
muted screen-share publication (the mute check applies only to the
non-pushed branch), and for a participant with two camera publications it
prefers the one named "canvas" even when that publication is audio and the
other one is video. -/
theorem renderRoomInfo_counterexample :
    renderRoomInfoVisible [tMutedSS, tBobMain, tBobCanvas] = [tMutedSS, tBobCanvas] ∧
    (∃ p, tMutedSS.publication = some p ∧ p.isMuted = true) ∧
    tMutedSS ∈ renderRoomInfoVisible [tMutedSS, tBobMain, tBobCanvas] ∧
    (∃ p, tBobCanvas.publication = some p ∧ p.kind = TrackKind.audio ∧
      p.trackName = "canvas") ∧
    (∃ p, tBobMain.publication = some p ∧ p.kind = TrackKind.video ∧
      p.isMuted = false) ∧
    tBobMain ∉ renderRoomInfoVisible [tMutedSS, tBobMain, tBobCanvas] := by
  refine ⟨by decide, ⟨_, rfl, rfl⟩, by decide, ⟨_, rfl, rfl, rfl⟩, ⟨_, rfl, rfl, rfl⟩,
    by decide⟩

/-- C10 amended: every track the room template passes to the layout layer
is an unmuted-or-screen-share track reference of a user participant
(identity nonempty, not "livekit-bridge", not starting with
"egress-service"); camera-branch tracks whose publication is muted are
excluded while every screen-share track of a user participant is included
regardless of mute; the list holds at most one camera-branch track per
participant identity; and when a participant has a qualifying camera
publication named "canvas" (of any kind, audio included) the track kept for
that participant is canvas-named. -/
theorem renderRoomInfo_amended (tracks : List TrackRef) :
    (∀ tr ∈ renderRoomInfoVisible tracks,
      isUserTrack tr = true ∧ tr.publication.isSome = true) ∧
    (∀ tr ∈ renderRoomInfoVisible tracks, isPushedSource tr.source = false →
      ∀ p, tr.publication = some p → p.isMuted = false) ∧
    (∀ tr ∈ tracks, tr.source = TrackSource.screenShare → tr.publication.isSome = true →
      isUserTrack tr = true → tr ∈ renderRoomInfoVisible tracks) ∧
    (∀ id, (renderRoomInfoVisible tracks).countP
      (fun tr => !isPushedSource tr.source && decide (tr.identity = id)) ≤ 1) ∧
    (∀ id, (∃ tr ∈ tracks, tr.publication.isSome = true ∧ isUserTrack tr = true ∧
        eligibleCamB tr = true ∧ tr.identity = id ∧ canvasNamedB tr = true) →
      ∃ v ∈ renderRoomInfoVisible tracks, v.identity = id ∧ canvasNamedB v = true) := by
  have hvis : renderRoomInfoVisible tracks =
      (renderLoop [] (tracks.filter
        (fun tr => tr.publication.isSome && isUserTrack tr))).1 ++
      ((renderLoop [] (tracks.filter
        (fun tr => tr.publication.isSome && isUserTrack tr))).2.map Prod.snd) := rfl
  set filtered := tracks.filter (fun tr => tr.publication.isSome && isUserTrack tr) with hfil
  have hinv := renderLoop_snd_inv filtered [] (by simp)
  have hnodup := renderLoop_snd_keys_nodup filtered [] (by simp)
  have hout : ∀ tr ∈ renderRoomInfoVisible tracks, tr ∈ filtered := by
    intro tr htr
    rw [hvis] at htr
    rcases List.mem_append.mp htr with h | h
    · rw [renderLoop_fst] at h
      exact List.mem_of_mem_filter h
    · obtain ⟨kv, hkv, rfl⟩ := List.mem_map.mp h
      rcases renderLoop_snd_mem filtered [] kv hkv with h2 | h2
      · simp at h2
      · exact h2
  refine ⟨?_, ?_, ?_, ?_, ?_⟩
  · intro tr htr
    have h := (List.mem_filter.mp (hout tr htr)).2
    rw [Bool.and_eq_true] at h
    exact ⟨h.2, h.1⟩
  · intro tr htr hps p hp
    rw [hvis] at htr
    rcases List.mem_append.mp htr with h | h
    · rw [renderLoop_fst] at h
      have := (List.mem_filter.mp h).2
      rw [hps] at this
      simp at this
    · obtain ⟨kv, hkv, rfl⟩ := List.mem_map.mp h
      exact eligibleCamB_not_muted hp (hinv kv hkv).2
  · intro tr htr hss hpub huser
    have hmemfil : tr ∈ filtered := by
      rw [hfil, List.mem_filter]
      refine ⟨htr, ?_⟩
      rw [Bool.and_eq_true]
      exact ⟨hpub, huser⟩
    have hps : isPushedSource tr.source = true := by
      rw [isPushedSource, hss]
      decide
    rw [hvis]
    apply List.mem_append_left
    rw [renderLoop_fst]
    exact List.mem_filter.mpr ⟨hmemfil, hps⟩
  · intro id
    rw [hvis, List.countP_append]
    have h1 : ((renderLoop [] filtered).1.countP
        (fun tr => !isPushedSource tr.source && decide (tr.identity = id))) = 0 := by
      rw [List.countP_eq_zero]
      intro a ha
      rw [renderLoop_fst] at ha
      have hpa := (List.mem_filter.mp ha).2
      simp [hpa]
    have h2 : (((renderLoop [] filtered).2.map Prod.snd).countP
        (fun tr => !isPushedSource tr.source && decide (tr.identity = id))) ≤ 1 := by
      have hmono : (((renderLoop [] filtered).2.map Prod.snd).countP
          (fun tr => !isPushedSource tr.source && decide (tr.identity = id))) ≤
          (((renderLoop [] filtered).2.map Prod.snd).countP
            (fun v => decide (v.identity = id))) :=
        List.countP_mono_left (fun a _ h => by rw [Bool.and_eq_true] at h; exact h.2)
      exact le_trans hmono
        (count_values_by_identity _ id hnodup (fun kv hkv => (hinv kv hkv).1))
    omega
  · rintro id ⟨tr, htr, hpub, huser, hel, hid, hcv⟩
    have hmemfil : tr ∈ filtered := by
      rw [hfil, List.mem_filter]
      refine ⟨htr, ?_⟩
      rw [Bool.and_eq_true]
      exact ⟨hpub, huser⟩
    obtain ⟨v, hlook, hcvv⟩ :=
      renderLoop_canvas filtered [] id (Or.inl ⟨tr, hmemfil, hel, hid, hcv⟩)
    have hkv : (id, v) ∈ (renderLoop [] filtered).2 := mapLookup_mem hlook
    refine ⟨v, ?_, (hinv (id, v) hkv).1, hcvv⟩
    rw [hvis]
    exact List.mem_append_right _ (List.mem_map_of_mem Prod.snd hkv)

/-- C10 amended witness: on the concrete three-track list the muted
screen-share of "alice" is kept, and the track kept for "bob" is
canvas-named. -/
theorem renderRoomInfo_amended_witness :
    tMutedSS ∈ renderRoomInfoVisible [tMutedSS, tBobMain, tBobCanvas] ∧
    ∃ v ∈ renderRoomInfoVisible [tMutedSS, tBobMain, tBobCanvas],
      v.identity = "bob" ∧ canvasNamedB v = true := by
  obtain ⟨h1, h2, h3, h4, h5⟩ := renderRoomInfo_amended [tMutedSS, tBobMain, tBobCanvas]
  refine ⟨h3 tMutedSS (by decide) (by decide) (by decide) (by decide), ?_⟩
  exact h5 "bob" ⟨tBobCanvas, by decide, by decide, by decide, by decide, rfl, by decide⟩

end EgressTemplate
